import Mathlib

/-!
# Verification of the `filter_text` keyword filter of `server.py`

This file embeds the pure text-filtering heuristic `filter_text` from
`server.py` (the GuideLens medicine-identification server) as executable
Lean functions over `List Char`, and proves the specified properties of it.

The embedding mirrors the Python source line by line:

```python
def filter_text(text: str) -> str:
    if not text or len(text.strip()) == 0:
        return text
    words = text.split()
    filtered_words = []
    for word in words:
        cleaned = re.sub(r'[^a-zA-Z0-9]', '', word)
        lower = cleaned.lower()
        if not cleaned or lower in STOP_WORDS:
            continue
        if (re.search(r'\d', cleaned) or
            any(keyword in lower for keyword in MEDICAL_KEYWORDS) or
            (word[0].isupper() and len(cleaned) > 2)):
            filtered_words.append(cleaned)
    result = ' '.join(filtered_words[:4])
    return result if result else text
```

Strings are modelled as `List Char`.  `str.split()` splits on runs of
whitespace and drops empty pieces; `str.strip()` removes whitespace at both
ends; `re.sub(r'[^a-zA-Z0-9]', '', w)` keeps exactly the ASCII alphanumeric
characters; `str.lower()` on the cleaned (ASCII-only) token is ASCII
lowercasing; `str.isupper()` is Unicode-aware, which we model on the ASCII
and Latin-1 ranges (uppercase code points 0x41-0x5A, 0xC0-0xD6, 0xD8-0xDE).
-/

/-- Convert a Lean string literal to the `List Char` it denotes. -/
def pyStr (s : String) : List Char := s.data

/-- The whitespace characters recognised by Python's `str.split()` /
`str.strip()` (the ASCII ones: space, tab, newline, carriage return,
vertical tab, form feed). -/
def isPyWhitespace (c : Char) : Bool :=
  c == ' ' || c == '\t' || c == '\n' || c == '\r' || c == '\x0b' || c == '\x0c'

/-- Python's `str.isupper()` for a single character, modelled on the ASCII
and Latin-1 ranges: `A`-`Z` (0x41-0x5A) and the Latin-1 uppercase letters
`À`-`Ö` (0xC0-0xD6) and `Ø`-`Þ` (0xD8-0xDE). -/
def isPyUpper (c : Char) : Bool :=
  decide ((0x41 ≤ c.toNat ∧ c.toNat ≤ 0x5A) ∨
          (0xC0 ≤ c.toNat ∧ c.toNat ≤ 0xD6) ∨
          (0xD8 ≤ c.toNat ∧ c.toNat ≤ 0xDE))

/-- `re.sub(r'[^a-zA-Z0-9]', '', word)`: keep exactly the ASCII letters and
digits (`Char.isAlphanum` is ASCII `a-zA-Z0-9`). -/
def cleaned (word : List Char) : List Char := word.filter Char.isAlphanum

/-- `str.lower()` on an ASCII-only token: ASCII lowercasing of each
character. -/
def lowerTok (w : List Char) : List Char := w.map Char.toLower

/-- Python's substring test `needle in haystack`: `needle` occurs
contiguously in `haystack`. -/
def containsSeq (needle : List Char) : List Char → Bool
  | [] => needle.isPrefixOf []
  | c :: cs => needle.isPrefixOf (c :: cs) || containsSeq needle cs

/-- The fixed stop-word set `STOP_WORDS` of `server.py`. -/
def STOP_WORDS : List (List Char) :=
  ["the", "is", "are", "was", "were", "a", "an", "and", "or", "but",
   "in", "on", "at", "to", "for", "of", "with", "by", "from", "it",
   "this", "that", "these", "those", "use", "used", "take"].map pyStr

/-- The fixed medical-keyword set `MEDICAL_KEYWORDS` of `server.py`. -/
def MEDICAL_KEYWORDS : List (List Char) :=
  ["mg", "ml", "tablet", "capsule", "syrup", "medicine", "drug", "pill",
   "dose", "dosage", "prescription", "relief", "pain", "fever"].map pyStr

/-- `word[0].isupper()` on a token.  Tokens produced by `split()` are never
empty, so the `[]` case is unreachable in the pipeline. -/
def capFirst : List Char → Bool
  | [] => false
  | c :: _ => isPyUpper c

/-- The body of the `for word in words` loop of `filter_text`: `none` when
the word is skipped (empty after cleaning, or a stop word, or qualifying
under none of the three rules), `some cleaned` when its cleaned form is
appended to `filtered_words`. -/
def keepWord (word : List Char) : Option (List Char) :=
  let c := cleaned word
  let l := lowerTok c
  if c = [] ∨ l ∈ STOP_WORDS then none
  else if c.any Char.isDigit = true ∨
          (MEDICAL_KEYWORDS.any fun k => containsSeq k l) = true ∨
          (capFirst word = true ∧ 2 < c.length) then some c
  else none

/-- Helper for `str.split()`: `cur` is the (possibly empty) token currently
being accumulated. -/
def splitWsAux (cur : List Char) : List Char → List (List Char)
  | [] => if cur = [] then [] else [cur]
  | c :: cs =>
    if isPyWhitespace c then
      if cur = [] then splitWsAux [] cs else cur :: splitWsAux [] cs
    else splitWsAux (cur ++ [c]) cs

/-- Python's `text.split()`: split on runs of whitespace, discarding empty
pieces. -/
def splitWs (s : List Char) : List (List Char) := splitWsAux [] s

/-- Python's `' '.join(ws)`. -/
def joinSpace : List (List Char) → List Char
  | [] => []
  | [w] => w
  | w :: x :: ws => w ++ ' ' :: joinSpace (x :: ws)

/-- Python's `text.strip()`: remove whitespace from both ends. -/
def stripWs (s : List Char) : List Char :=
  ((s.dropWhile isPyWhitespace).reverse.dropWhile isPyWhitespace).reverse

/-- The embedding of `filter_text` from `server.py`. -/
def filter_text (text : List Char) : List Char :=
  if text = [] ∨ (stripWs text).length = 0 then text
  else
    let words := splitWs text
    let filtered_words := words.filterMap keepWord
    let result := joinSpace (filtered_words.take 4)
    if result = [] then text else result

/-! ## Helper lemmas -/

/-- Python's `in` test agrees with the mathematical contiguous-substring
relation. -/
theorem containsSeq_iff_infix (k : List Char) :
    ∀ l : List Char, containsSeq k l = true ↔ k <:+: l := by
  intro l
  induction l with
  | nil => simp [containsSeq]
  | cons c cs ih => simp [containsSeq, ih, List.infix_cons_iff]

/-- ASCII alphanumeric characters are not Python whitespace. -/
theorem alnum_not_ws {c : Char} (h : c.isAlphanum = true) :
    isPyWhitespace c = false := by
  cases hw : isPyWhitespace c
  · rfl
  · exfalso
    simp only [isPyWhitespace, Bool.or_eq_true, beq_iff_eq] at hw
    rcases hw with ((((rfl | rfl) | rfl) | rfl) | rfl) | rfl <;>
      exact absurd h (by decide)

/-- `capFirst` holds exactly when the head exists and is uppercase. -/
theorem capFirst_iff (w : List Char) :
    capFirst w = true ↔ ∃ u, w.head? = some u ∧ isPyUpper u = true := by
  cases w <;> simp [capFirst]

/-- Everything the loop appends is the cleaned form of the word, is
non-empty, and is not a stop word. -/
theorem keepWord_eq_some {w c : List Char} (h : keepWord w = some c) :
    c = cleaned w ∧ cleaned w ≠ [] ∧ lowerTok (cleaned w) ∉ STOP_WORDS := by
  simp only [keepWord] at h
  split_ifs at h with h1 h2
  cases Option.some.inj h
  push_neg at h1
  exact ⟨rfl, h1.1, h1.2⟩

/-- Every entry of the accumulator `filtered_words` is non-empty, consists
only of ASCII letters and digits, and is not a stop word. -/
theorem mem_filterMap_keepWord {l : List (List Char)} {t : List Char}
    (ht : t ∈ l.filterMap keepWord) :
    t ≠ [] ∧ (∀ c ∈ t, c.isAlphanum = true) ∧ lowerTok t ∉ STOP_WORDS := by
  obtain ⟨w, -, hk⟩ := List.mem_filterMap.mp ht
  obtain ⟨rfl, hne, hstop⟩ := keepWord_eq_some hk
  exact ⟨hne, fun c hc => List.of_mem_filter hc, hstop⟩

/-- Scanning a whitespace-free block just extends the current token. -/
theorem splitWsAux_append_notws :
    ∀ (w cur rest : List Char), (∀ c ∈ w, isPyWhitespace c = false) →
      splitWsAux cur (w ++ rest) = splitWsAux (cur ++ w) rest := by
  intro w
  induction w with
  | nil => simp
  | cons c cs ih =>
    intro cur rest h
    have hc : isPyWhitespace c = false := h c (by simp)
    simp only [List.cons_append, splitWsAux, hc, Bool.false_eq_true, if_false,
      List.append_eq]
    rw [ih (cur ++ [c]) rest (fun x hx => h x (by simp [hx]))]
    simp

/-- Splitting the space-join of non-empty whitespace-free tokens recovers
exactly those tokens. -/
theorem splitWs_joinSpace :
    ∀ ws : List (List Char),
      (∀ w ∈ ws, w ≠ [] ∧ ∀ c ∈ w, isPyWhitespace c = false) →
      splitWs (joinSpace ws) = ws := by
  intro ws
  induction ws with
  | nil => intro _; rfl
  | cons w ws ih =>
    intro h
    obtain ⟨hw, hwc⟩ := h w (List.mem_cons_self w ws)
    cases ws with
    | nil =>
      show splitWsAux [] (joinSpace [w]) = [w]
      have := splitWsAux_append_notws w [] [] hwc
      simp only [List.append_nil, List.nil_append] at this
      rw [show joinSpace [w] = w from rfl, this, splitWsAux, if_neg hw]
    | cons x ws' =>
      show splitWsAux [] (w ++ ' ' :: joinSpace (x :: ws')) = w :: x :: ws'
      rw [splitWsAux_append_notws w [] (' ' :: joinSpace (x :: ws')) hwc]
      simp only [List.nil_append]
      rw [show splitWsAux w (' ' :: joinSpace (x :: ws')) =
            if w = [] then splitWsAux [] (joinSpace (x :: ws'))
            else w :: splitWsAux [] (joinSpace (x :: ws')) from by
        simp [splitWsAux, show isPyWhitespace ' ' = true from rfl]]
      rw [if_neg hw]
      have := ih (fun v hv => h v (List.mem_cons_of_mem w hv))
      rw [show splitWsAux [] (joinSpace (x :: ws')) = splitWs (joinSpace (x :: ws')) from rfl,
        this]

/-- If the stripped text is empty, every character is whitespace. -/
theorem stripWs_len_zero {s : List Char} (h : (stripWs s).length = 0) :
    ∀ c ∈ s, isPyWhitespace c = true := by
  have h0 : stripWs s = [] := List.length_eq_zero.mp h
  unfold stripWs at h0
  rw [List.reverse_eq_nil_iff, List.dropWhile_eq_nil_iff] at h0
  intro c hc
  rw [← List.takeWhile_append_dropWhile (p := isPyWhitespace) (l := s)] at hc
  rcases List.mem_append.mp hc with h1 | h2
  · exact List.mem_takeWhile_imp h1
  · exact h0 c (List.mem_reverse.mpr h2)

/-- Splitting an all-whitespace string yields no tokens. -/
theorem splitWsAux_all_ws :
    ∀ s : List Char, (∀ c ∈ s, isPyWhitespace c = true) → splitWsAux [] s = [] := by
  intro s
  induction s with
  | nil => intro _; rfl
  | cons c cs ih =>
    intro h
    simp only [splitWsAux, h c (List.mem_cons_self c cs), if_true, if_pos rfl]
    exact ih fun x hx => h x (List.mem_cons_of_mem c hx)

/-- The accumulator is a sublist of the cleaned forms of all tokens:
output order follows input order. -/
theorem filterMap_keepWord_sublist (l : List (List Char)) :
    (l.filterMap keepWord).Sublist (l.map cleaned) := by
  induction l with
  | nil => simp
  | cons w l ih =>
    cases hk : keepWord w with
    | none => simpa [List.filterMap_cons, hk] using ih.cons (cleaned w)
    | some c =>
      obtain ⟨rfl, -, -⟩ := keepWord_eq_some hk
      simpa [List.filterMap_cons, hk] using ih.cons₂ (cleaned w)

/-- The join of a list starting with a non-empty token is non-empty. -/
theorem joinSpace_ne_nil {w : List Char} (ws : List (List Char)) (h : w ≠ []) :
    joinSpace (w :: ws) ≠ [] := by
  cases ws <;> simp [joinSpace, h]

/-- When at least one token qualifies, `filter_text` returns the space-join
of the first four accumulator entries. -/
theorem filter_text_of_qual {text : List Char}
    (h : (splitWs text).filterMap keepWord ≠ []) :
    filter_text text = joinSpace (((splitWs text).filterMap keepWord).take 4) := by
  obtain ⟨w, fw, hfw⟩ := List.exists_cons_of_ne_nil h
  have hw : w ≠ [] :=
    (mem_filterMap_keepWord (by rw [hfw]; exact List.mem_cons_self w fw)).1
  have hne : joinSpace (((splitWs text).filterMap keepWord).take 4) ≠ [] := by
    rw [hfw, List.take_succ_cons]
    exact joinSpace_ne_nil (fw.take 3) hw
  have hnotws : ¬(text = [] ∨ (stripWs text).length = 0) := by
    rintro (rfl | hlen)
    · exact h (by decide)
    · have hall := stripWs_len_zero hlen
      have hsp : splitWs text = [] := splitWsAux_all_ws text hall
      exact h (by rw [hsp]; rfl)
  simp only [filter_text]
  rw [if_neg hnotws, if_neg hne]

/-- The tokens of a non-fallback result are exactly the first four
accumulator entries. -/
theorem splitWs_filter_text {text : List Char}
    (h : (splitWs text).filterMap keepWord ≠ []) :
    splitWs (filter_text text) = ((splitWs text).filterMap keepWord).take 4 := by
  rw [filter_text_of_qual h]
  apply splitWs_joinSpace
  intro t ht
  obtain ⟨hne, halnum, -⟩ := mem_filterMap_keepWord (List.mem_of_mem_take ht)
  exact ⟨hne, fun c hc => alnum_not_ws (halnum c hc)⟩

/-! ## Claim theorems -/

/-- C1: For every non-empty, non-whitespace-only input, a whitespace
token whose cleaned form (non-ASCII-alphanumeric characters removed) is
non-empty and whose lowercase cleaned form is not a stop word is appended
(as its cleaned form) to the accumulator if and only if: the cleaned form
contains a digit, or the lowercase cleaned form contains a medical keyword
as a substring, or the original token's first character is an uppercase
letter and the cleaned form is longer than 2 characters. -/
theorem filter_text_token_qualification (text w : List Char)
    (_hw : w ∈ splitWs text) (hc : cleaned w ≠ [])
    (hs : lowerTok (cleaned w) ∉ STOP_WORDS) :
    keepWord w = some (cleaned w) ↔
      ((∃ d ∈ cleaned w, d.isDigit = true) ∨
       (∃ k ∈ MEDICAL_KEYWORDS, k <:+: lowerTok (cleaned w)) ∨
       (∃ u, w.head? = some u ∧ isPyUpper u = true ∧ 2 < (cleaned w).length)) := by
  have hbridge :
      ((cleaned w).any Char.isDigit = true ∨
        (MEDICAL_KEYWORDS.any fun k => containsSeq k (lowerTok (cleaned w))) = true ∨
        (capFirst w = true ∧ 2 < (cleaned w).length)) ↔
      ((∃ d ∈ cleaned w, d.isDigit = true) ∨
       (∃ k ∈ MEDICAL_KEYWORDS, k <:+: lowerTok (cleaned w)) ∨
       (∃ u, w.head? = some u ∧ isPyUpper u = true ∧ 2 < (cleaned w).length)) := by
    apply or_congr
    · exact List.any_eq_true
    · apply or_congr
      · rw [List.any_eq_true]
        exact exists_congr fun k =>
          and_congr_right fun _ => containsSeq_iff_infix k (lowerTok (cleaned w))
      · rw [capFirst_iff]
        constructor
        · rintro ⟨⟨u, hu, hup⟩, hlen⟩; exact ⟨u, hu, hup, hlen⟩
        · rintro ⟨u, hu, hup, hlen⟩; exact ⟨⟨u, hu, hup⟩, hlen⟩
  simp only [keepWord]
  rw [if_neg (not_or.mpr ⟨hc, hs⟩)]
  split_ifs with hq
  · exact iff_of_true rfl (hbridge.mp hq)
  · exact iff_of_false (by simp) fun hr => hq (hbridge.mpr hr)

/-- C1 witness at the token "Ibuprofen" of the input "Ibuprofen 200mg". -/
theorem filter_text_token_qualification_witness :
    pyStr "Ibuprofen" ∈ splitWs (pyStr "Ibuprofen 200mg") ∧
      (keepWord (pyStr "Ibuprofen") = some (cleaned (pyStr "Ibuprofen")) ↔
        ((∃ d ∈ cleaned (pyStr "Ibuprofen"), d.isDigit = true) ∨
         (∃ k ∈ MEDICAL_KEYWORDS, k <:+: lowerTok (cleaned (pyStr "Ibuprofen"))) ∨
         (∃ u, (pyStr "Ibuprofen").head? = some u ∧ isPyUpper u = true ∧
           2 < (cleaned (pyStr "Ibuprofen")).length))) :=
  ⟨by decide,
    filter_text_token_qualification (pyStr "Ibuprofen 200mg") (pyStr "Ibuprofen")
      (by decide) (by decide) (by decide)⟩

/-- C2 counterexample: on the all-stop-word input "the is are was were"
no token qualifies, so the fallback returns the input itself, which has 5
whitespace-delimited tokens; the output is not always at most 4 tokens. -/
theorem filter_text_le_four_counterexample :
    ¬ (splitWs (filter_text (pyStr "the is are was were"))).length ≤ 4 := by decide

/-- C2 (amended): whenever at least one token qualifies (the fallback is
not taken), the output contains at most 4 whitespace-delimited tokens. -/
theorem filter_text_le_four_of_qual (text : List Char)
    (h : (splitWs text).filterMap keepWord ≠ []) :
    (splitWs (filter_text text)).length ≤ 4 := by
  rw [splitWs_filter_text h]
  exact List.length_take_le 4 _

/-- C2 witness at "Aspirin 75mg daily". -/
theorem filter_text_le_four_witness :
    (splitWs (pyStr "Aspirin 75mg daily")).filterMap keepWord ≠ [] ∧
      (splitWs (filter_text (pyStr "Aspirin 75mg daily"))).length ≤ 4 :=
  ⟨by decide, filter_text_le_four_of_qual _ (by decide)⟩

/-- C3: when no token of the input qualifies (in particular when every
token is a stop word or pure punctuation), `filter_text` returns the input
unchanged; the function is total, so every input has a defined output. -/
theorem filter_text_fallback_of_none (text : List Char)
    (h : ∀ w ∈ splitWs text, keepWord w = none) :
    filter_text text = text := by
  have hfm : (splitWs text).filterMap keepWord = [] :=
    List.filterMap_eq_nil_iff.mpr h
  simp only [filter_text]
  split_ifs with h1 h2
  · rfl
  · rfl
  · exact absurd (by rw [hfm]; rfl) h2

/-- C3 witness: "of !! the" (stop words and pure punctuation only). -/
theorem filter_text_fallback_witness :
    (∀ w ∈ splitWs (pyStr "of !! the"), keepWord w = none) ∧
      filter_text (pyStr "of !! the") = pyStr "of !! the" :=
  ⟨by decide, filter_text_fallback_of_none _ (by decide)⟩

/-- C4: when at least one token qualifies, the output is the space-join of
the first 4 accumulator entries (all of them if fewer qualify); its token
list is exactly those cleaned forms, and they appear in the input's
relative order (a sublist of the cleaned forms of the input's tokens). -/
theorem filter_text_first_four_in_order (text : List Char)
    (h : (splitWs text).filterMap keepWord ≠ []) :
    filter_text text = joinSpace (((splitWs text).filterMap keepWord).take 4) ∧
      splitWs (filter_text text) = ((splitWs text).filterMap keepWord).take 4 ∧
      (splitWs (filter_text text)).Sublist ((splitWs text).map cleaned) := by
  refine ⟨filter_text_of_qual h, splitWs_filter_text h, ?_⟩
  rw [splitWs_filter_text h]
  exact (List.take_sublist 4 _).trans (filterMap_keepWord_sublist _)

/-- C4 witness at "Dolo650 twice daily". -/
theorem filter_text_first_four_witness :
    (splitWs (pyStr "Dolo650 twice daily")).filterMap keepWord ≠ [] ∧
      filter_text (pyStr "Dolo650 twice daily") =
        joinSpace (((splitWs (pyStr "Dolo650 twice daily")).filterMap keepWord).take 4) :=
  ⟨by decide, (filter_text_first_four_in_order _ (by decide)).1⟩

/-- C5: on an empty or whitespace-only input, `filter_text` returns the
input itself. -/
theorem filter_text_whitespace_id (s : List Char)
    (h : s.all isPyWhitespace = true) : filter_text s = s := by
  have hd : s.dropWhile isPyWhitespace = [] :=
    List.dropWhile_eq_nil_iff.mpr fun x hx => List.all_eq_true.mp h x hx
  have hlen : (stripWs s).length = 0 := by
    unfold stripWs
    rw [hd]
    rfl
  simp only [filter_text]
  rw [if_pos (Or.inr hlen)]

/-- C5 witness: the empty string and a whitespace-only string. -/
theorem filter_text_whitespace_id_witness :
    filter_text (pyStr "") = pyStr "" ∧
      filter_text (pyStr " \t\n ") = pyStr " \t\n " :=
  ⟨filter_text_whitespace_id _ (by decide), filter_text_whitespace_id _ (by decide)⟩

/-- C6: `filter_text` is not idempotent.  In "Éabc 5mg" the token "Éabc"
qualifies only through the capitalization rule ('É' is an uppercase
letter) and is kept as its cleaned form "abc"; re-filtering the result
"abc 5mg" drops "abc" (lowercase initial, no digit, no keyword), giving
"5mg". -/
theorem filter_text_not_idempotent :
    ∃ s : List Char, filter_text (filter_text s) ≠ filter_text s :=
  ⟨pyStr "Éabc 5mg", by decide⟩

/-- C7: filtering "Paracetamol 500mg tablet for pain relief" yields at
most 4 tokens, containing "Paracetamol" and a token containing "500mg",
excluding the stop word "for", in the input's relative order. -/
theorem filter_text_paracetamol_example :
    (splitWs (filter_text (pyStr "Paracetamol 500mg tablet for pain relief"))).length ≤ 4 ∧
      pyStr "Paracetamol" ∈
        splitWs (filter_text (pyStr "Paracetamol 500mg tablet for pain relief")) ∧
      (∃ t ∈ splitWs (filter_text (pyStr "Paracetamol 500mg tablet for pain relief")),
        pyStr "500mg" <:+: t) ∧
      pyStr "for" ∉
        splitWs (filter_text (pyStr "Paracetamol 500mg tablet for pain relief")) ∧
      (splitWs (filter_text (pyStr "Paracetamol 500mg tablet for pain relief"))).Sublist
        ((splitWs (pyStr "Paracetamol 500mg tablet for pain relief")).map cleaned) := by
  decide

/-- C8: a token whose first (uncleaned) character is not an uppercase
letter never qualifies through the capitalization rule: without a digit or
a medical keyword it is not kept, even when its cleaned form begins with
an uppercase letter. -/
theorem filter_text_no_cap_rule (c : Char) (w : List Char)
    (hup : isPyUpper c = false)
    (hd : (cleaned (c :: w)).any Char.isDigit = false)
    (hk : (MEDICAL_KEYWORDS.any fun k =>
      containsSeq k (lowerTok (cleaned (c :: w)))) = false) :
    keepWord (c :: w) = none := by
  simp only [keepWord]
  split_ifs with h1 h2
  · rfl
  · exfalso
    rcases h2 with h2 | h2 | ⟨h2, -⟩
    · rw [hd] at h2; exact Bool.false_ne_true h2
    · rw [hk] at h2; exact Bool.false_ne_true h2
    · simp only [capFirst, hup] at h2; exact Bool.false_ne_true h2
  · rfl

/-- C8 witness: "(Paracetamol" — its cleaned form "Paracetamol" begins
with an uppercase letter, yet the token is not kept. -/
theorem filter_text_no_cap_rule_witness :
    isPyUpper '(' = false ∧ keepWord (pyStr "(Paracetamol") = none :=
  ⟨by decide,
    filter_text_no_cap_rule '(' (pyStr "Paracetamol")
      (by decide) (by decide) (by decide)⟩

/-- C9: when the fallback branch is not taken, every token of the output
is non-empty, consists only of ASCII letters and digits, and its lowercase
form is not a stop word. -/
theorem filter_text_output_tokens_wellformed (text : List Char)
    (h : (splitWs text).filterMap keepWord ≠ []) :
    ∀ t ∈ splitWs (filter_text text),
      t ≠ [] ∧ (∀ c ∈ t, c.isAlphanum = true) ∧ lowerTok t ∉ STOP_WORDS := by
  intro t ht
  rw [splitWs_filter_text h] at ht
  exact mem_filterMap_keepWord (List.mem_of_mem_take ht)

/-- C9 witness at "Benadryl syrup 10ml". -/
theorem filter_text_output_tokens_wellformed_witness :
    (splitWs (pyStr "Benadryl syrup 10ml")).filterMap keepWord ≠ [] ∧
      ∀ t ∈ splitWs (filter_text (pyStr "Benadryl syrup 10ml")),
        t ≠ [] ∧ (∀ c ∈ t, c.isAlphanum = true) ∧ lowerTok t ∉ STOP_WORDS :=
  ⟨by decide, filter_text_output_tokens_wellformed _ (by decide)⟩

/-- C10: the output of `filter_text` is the empty string exactly when the
input is the empty string: every non-empty input (including whitespace-only
or all-punctuation input) yields a non-empty output, through a non-empty
join of qualifying tokens or the unchanged-input fallback. -/
theorem filter_text_nil_iff (s : List Char) : filter_text s = [] ↔ s = [] := by
  constructor
  · intro h
    by_contra hs
    simp only [filter_text] at h
    split_ifs at h with h1 h2
    · exact hs h
    · exact hs h
    · exact h2 h
  · rintro rfl
    rfl

/-! ## Concrete evaluations of the embedding -/

example : filter_text (pyStr "Paracetamol 500mg tablet for pain relief") =
    pyStr "Paracetamol 500mg tablet pain" := by decide

example : filter_text (pyStr "Éabc 5mg") = pyStr "abc 5mg" := by decide

example : filter_text (pyStr "abc 5mg") = pyStr "5mg" := by decide
